import Mathlib

/-!
# PowerWeChat: request logging and the customer-service avatar upload

A shallow embedding of

* `src/kernel/request/request.go` (`LogRequest`), and
* `src/officialAccount/customerService/client.go` (`Client.SetAvatar`).

Go strings and byte slices are both sequences of bytes that the code only
concatenates; both are represented by `String`, one symbol per byte.

The Go standard library pieces used by `LogRequest` (`io.Reader`,
`io.TeeReader`, `io.ReadAll`, `bytes.Buffer`, `io.NopCloser`, `fmt.Sprintf`
with `%s` verbs) are modelled after their documented behaviour.  A reader is
described by the finite sequence of outcomes of its successive `Read` calls;
readers that never report an error or the end of the stream are outside the
model.
-/

namespace PowerWeChat

/-! ## Go standard library -/

/-- Non-nil error values a `Read` call can return: `io.EOF` or any other error. -/
inductive ReadError where
  | EOF
  | other (msg : String)
  deriving DecidableEq, Repr

/-- Outcome of one `Read(p)` call: the bytes stored into `p` and the error value
returned with them (`none` is a nil error). -/
structure ReadStep where
  data : String
  err : Option ReadError
  deriving DecidableEq, Repr

/-- State of an `io.Reader`: the outcomes its next `Read` calls will have.  When
the list is used up the reader reports `(0, io.EOF)`. -/
abbrev Reader := List ReadStep

/-- One `Read` call: the outcome and the reader state after it. -/
def Reader.Read : Reader → ReadStep × Reader
  | [] => (⟨"", some ReadError.EOF⟩, [])
  | s :: rest => (s, rest)

/-- Value `io.ReadAll` returns for an outcome that ends its loop: `io.EOF` is
reported as a nil error, any other error as it is. -/
def ReadAll.result (b : String) : ReadError → String × Option String
  | ReadError.EOF => (b, none)
  | ReadError.other msg => (b, some msg)

/-- Loop of `io.ReadAll(r)` with `b` the bytes gathered so far: every `Read`
extends `b` by the bytes delivered; the first non-nil error ends the loop. -/
def ReadAll.loop : Reader → String → String × Option String
  | [], b => ReadAll.result b ReadError.EOF
  | s :: rest, b =>
    match s.err with
    | none => ReadAll.loop rest (b ++ s.data)
    | some e => ReadAll.result (b ++ s.data) e

/-- Function `io.ReadAll(r)`: the bytes read and the error (nil at end of stream). -/
def ReadAll (r : Reader) : String × Option String :=
  ReadAll.loop r ""

/-- State of `io.TeeReader(r, w)` with `w` a `*bytes.Buffer`: the source reader
and the contents of the buffer. -/
structure teeReader where
  r : Reader
  w : String
  deriving DecidableEq, Repr

/-- Constructor `io.TeeReader(r, w)`. -/
def TeeReader (r : Reader) (w : String) : teeReader := ⟨r, w⟩

/-- Method `(*teeReader).Read`: read from the source and write what was read to
`w`; `bytes.Buffer.Write` always returns a nil error, so the outcome of the
source is passed on unchanged. -/
def teeReader.Read (t : teeReader) : ReadStep × teeReader :=
  let (s, r) := t.r.Read
  (s, ⟨r, t.w ++ s.data⟩)

/-- Loop of `io.ReadAll(t)` for a tee reader `t` whose source has the pending
outcomes of the first argument and whose buffer holds `w`; `b` are the bytes
gathered so far.  Returns what `io.ReadAll` returns and the final state of `t`. -/
def ReadAllTee.loop : Reader → String → String → (String × Option String) × teeReader
  | [], w, b =>
    let (s, t) := teeReader.Read ⟨[], w⟩
    (ReadAll.result (b ++ s.data) ReadError.EOF, t)
  | s0 :: rest, w, b =>
    let (s, t) := teeReader.Read ⟨s0 :: rest, w⟩
    match s.err with
    | none => ReadAllTee.loop rest t.w (b ++ s.data)
    | some e => (ReadAll.result (b ++ s.data) e, t)

/-- Call `io.ReadAll(t)` on a tee reader. -/
def ReadAllTee (t : teeReader) : (String × Option String) × teeReader :=
  ReadAllTee.loop t.r t.w ""

/-- Reader `io.NopCloser(&buf)` over a `bytes.Buffer` holding `buf`: reading it
delivers the unread bytes, and `io.EOF` once the buffer is empty. -/
def NopCloser (buf : String) : Reader :=
  if buf = "" then [] else [⟨buf, none⟩]

/-- All bytes a stream carries up to its end, whether or not reads in between
report an error. -/
def Reader.contents : Reader → String
  | [] => ""
  | s :: rest =>
    match s.err with
    | some ReadError.EOF => s.data
    | _ => s.data ++ Reader.contents rest

/-! ## Logging sink -/

/-- Methods of `contract.LoggerInterface` a call can go to. -/
inductive LogLevel where
  | DebugF
  | InfoF
  | WarnF
  | ErrorF
  deriving DecidableEq, Repr

/-- One recorded call on the logger: the method, its format argument and the
further arguments. -/
structure LogCall where
  level : LogLevel
  format : String
  args : List String
  deriving DecidableEq, Repr

/-- The logger is observed through the calls made on it, oldest first. -/
abbrev Logger := List LogCall

/-- Call `logger.InfoF(format)` without further arguments. -/
def Logger.InfoF (logger : Logger) (format : String) : Logger :=
  logger ++ [⟨LogLevel.InfoF, format, []⟩]

/-! ## `LogRequest` -/

/-- The fields of `http.Request` that `LogRequest` touches.  `URL` stands for
`request.URL.String()`.  `Header` lists the entries of the header map in the
order the `range` loop of this call yields them, each name with its values in
stored order.  `Body` is `none` for a nil body. -/
structure Request where
  Method : String
  URL : String
  Header : List (String × List String)
  Body : Option Reader
  deriving DecidableEq, Repr

/-- Inner loop over the values of one header name (request.go lines 20-22). -/
def LogRequest.writeValues (output : String) (k : String) (vals : List String) : String :=
  vals.foldl (fun out v => out ++ ("\t" ++ k ++ ":" ++ v ++ "\r\n")) output

/-- Outer loop over the header names (request.go lines 19-23). -/
def LogRequest.writeHeader (output : String) (header : List (String × List String)) : String :=
  header.foldl (fun out kv => LogRequest.writeValues out kv.1 kv.2) output

/-- Contents of `output` after the header block (request.go lines 13-24). -/
def LogRequest.head (request : Request) : String :=
  let output := ""
  let output := output ++ (request.Method ++ " " ++ request.URL ++ " ")
  let output := output ++ "\r\nrequest header: \x7b \r\n"
  let output := LogRequest.writeHeader output request.Header
  output ++ "\x7d \r\n"

/-- Function `LogRequest(logger, request)`: returns the logger and the request
as the call leaves them. -/
def LogRequest (logger : Logger) (request : Request) : Logger × Request :=
  let output := LogRequest.head request
  match request.Body with
  | some body =>
    let output := output ++ "request body:"
    let buf := ""
    let reader := TeeReader body buf
    let (res, reader) := ReadAllTee reader
    let request := { request with Body := some (NopCloser reader.w) }
    let output := output ++ res.1
    (logger.InfoF output, request)
  | none => (logger.InfoF output, request)

/-! ## The log format in the words of the specification -/

/-- The (name, value) pairs of a header collection: names in iteration order,
the values of each name in stored order. -/
def headerPairs : List (String × List String) → List (String × String)
  | [] => []
  | (k, vals) :: rest => vals.map (fun v => (k, v)) ++ headerPairs rest

/-- One header line of the log, tab, name, colon, value, CR LF. -/
def headerLine (kv : String × String) : String :=
  "\t" ++ kv.1 ++ ":" ++ kv.2 ++ "\r\n"

/-- Concatenation of the header lines of a list of (name, value) pairs. -/
def headerLines : List (String × String) → String
  | [] => ""
  | kv :: rest => headerLine kv ++ headerLines rest

/-- Steps 1 to 4 of the specified behaviour: the method and URL line, the opening
marker, one line per (name, value) pair and the closing marker. -/
def specHead (m u : String) (pairs : List (String × String)) : String :=
  m ++ " " ++ u ++ " " ++ "\r\nrequest header: \x7b \r\n" ++ headerLines pairs ++ "\x7d \r\n"

/-- A string occurs inside another one. -/
def occursIn (marker s : String) : Prop :=
  ∃ a b : String, s = a ++ marker ++ b

/-- Step 5 of the specified behaviour: nothing for a nil body, otherwise the
marker followed by the bytes read from the body. -/
def specBody : Option Reader → String
  | none => ""
  | some body => "request body:" ++ (ReadAll body).1

/-! ## `Client.SetAvatar` -/

/-- Values of `object.HashMap` and `object.StringMap` as built by `SetAvatar`:
string keys with string values. -/
abbrev HashMap := List (String × String)

/-- Type `response.ResponseOfficialAccount`; `SetAvatar` only allocates it. -/
structure ResponseOfficialAccount where
  ErrCode : Int
  ErrMsg : String
  deriving DecidableEq, Repr

/-- Arguments of one call `HttpUpload(ctx, url, files, form, query, outHeader, outBody)`
apart from the context and the `outBody` pointer; `none` is nil. -/
structure UploadCall where
  url : String
  files : Option HashMap
  form : Option HashMap
  query : Option HashMap
  outHeader : Option HashMap
  deriving DecidableEq, Repr

/-- Type `kernel.BaseClient`, which is not part of the sources at hand: its
method `HttpUpload` is a parameter that maps the arguments of a call and the
value `outBody` points to before the call to that value after the call and the
returned error; `uploads` records the calls made, oldest first. -/
structure BaseClient where
  HttpUpload : UploadCall → Option ResponseOfficialAccount →
    Option ResponseOfficialAccount × Option String
  uploads : List UploadCall

/-- Type `customerService.Client`. -/
structure Client where
  BaseClient : BaseClient

/-- Method `(*Client).SetAvatar(ctx, account, path)`: the returned pair
`(result, err)` and the client after the call. -/
def Client.SetAvatar (comp : Client) (account path : String) :
    (Option ResponseOfficialAccount × Option String) × Client :=
  let result : Option ResponseOfficialAccount := some ⟨0, ""⟩
  if path ≠ "" then
    let files : Option HashMap := some [("media", path)]
    let params : HashMap := [("kf_account", account)]
    let call : UploadCall :=
      ⟨"customservice/kfaccount/uploadheadimg", files, none, some params, none⟩
    let (result, err) := comp.BaseClient.HttpUpload call result
    ((result, err), ⟨{ comp.BaseClient with uploads := comp.BaseClient.uploads ++ [call] }⟩)
  else
    ((none, some "path is empty"), comp)

/-! ## Sample inputs -/

/-- The request of the format scenario of the specification. -/
def formatScenario : Request :=
  ⟨"POST", "https://api.example.com/send", [("Content-Type", ["application/json"])],
    some [⟨"\x7b\"touser\":\"abc\"\x7d", none⟩]⟩

/-- A body stream carrying `abc` and `def` whose second read fails. -/
def failingBody : Reader :=
  [⟨"abc", none⟩, ⟨"", some (ReadError.other "i/o timeout")⟩, ⟨"def", none⟩]

/-- A request whose body is `failingBody`. -/
def failingRequest : Request :=
  ⟨"POST", "https://api.example.com/send", [], some failingBody⟩

/-- A request without a body that has the words of the body marker in a header
value. -/
def markerRequest : Request :=
  ⟨"GET", "https://api.example.com/list", [("X-Note", ["request body:"])], none⟩

/-- A request without a body with two header names, one of them with two values. -/
def twoHeaderRequest : Request :=
  ⟨"GET", "https://api.example.com/list", [("X-A", ["1", "2"]), ("X-B", ["3"])], none⟩

/-- A base client whose upload always fails with the same error. -/
def sampleClient : Client :=
  ⟨⟨fun _ r => (r, some "upload failed"), []⟩⟩

/-! ## Auxiliary lemmas -/

theorem headerLines_append (xs ys : List (String × String)) :
    headerLines (xs ++ ys) = headerLines xs ++ headerLines ys := by
  induction xs with
  | nil => simp [headerLines]
  | cons x xs ih => simp [headerLines, ih, String.append_assoc]

theorem writeValues_eq (output k : String) (vals : List String) :
    LogRequest.writeValues output k vals
      = output ++ headerLines (vals.map (fun v => (k, v))) := by
  unfold LogRequest.writeValues
  induction vals generalizing output with
  | nil => simp [headerLines]
  | cons v vals ih =>
    simp only [List.foldl_cons, List.map_cons, headerLines, headerLine]
    rw [ih]
    simp [String.append_assoc]

theorem writeHeader_eq (output : String) (header : List (String × List String)) :
    LogRequest.writeHeader output header = output ++ headerLines (headerPairs header) := by
  unfold LogRequest.writeHeader
  induction header generalizing output with
  | nil => simp [headerPairs, headerLines]
  | cons kv header ih =>
    obtain ⟨k, vals⟩ := kv
    simp only [List.foldl_cons, headerPairs]
    rw [ih, writeValues_eq, headerLines_append, String.append_assoc]

theorem head_eq (request : Request) :
    LogRequest.head request
      = specHead request.Method request.URL (headerPairs request.Header) := by
  simp [LogRequest.head, specHead, writeHeader_eq, String.append_assoc]

theorem ReadAll_loop_eq (r : Reader) (b : String) :
    ReadAll.loop r b = (b ++ (ReadAll r).1, (ReadAll r).2) := by
  unfold ReadAll
  induction r generalizing b with
  | nil => simp [ReadAll.loop, ReadAll.result]
  | cons s rest ih =>
    cases hs : s.err with
    | none =>
      simp only [ReadAll.loop, hs]
      rw [ih (b ++ s.data), ih ("" ++ s.data)]
      simp [String.append_assoc]
    | some e =>
      cases e <;> simp [ReadAll.loop, hs, ReadAll.result]

theorem ReadAllTee_loop_eq (r : Reader) (w b : String) :
    (ReadAllTee.loop r w b).1 = ReadAll.loop r b
      ∧ (ReadAllTee.loop r w b).2.w = w ++ (ReadAll r).1 := by
  induction r generalizing w b with
  | nil => simp [ReadAllTee.loop, teeReader.Read, Reader.Read, ReadAll.loop, ReadAll,
      ReadAll.result]
  | cons s rest ih =>
    cases hs : s.err with
    | none =>
      have h := ih (w ++ s.data) (b ++ s.data)
      have h2 := ReadAll_loop_eq rest ("" ++ s.data)
      simp only [ReadAllTee.loop, teeReader.Read, Reader.Read, hs, ReadAll.loop, ReadAll]
      refine ⟨h.1, ?_⟩
      rw [h.2, h2]
      simp [String.append_assoc]
    | some e =>
      cases e <;>
        simp [ReadAllTee.loop, teeReader.Read, Reader.Read, hs, ReadAll.loop, ReadAll,
          ReadAll.result]

theorem ReadAllTee_eq (body : Reader) :
    (ReadAllTee (TeeReader body "")).1 = ReadAll body
      ∧ (ReadAllTee (TeeReader body "")).2.w = (ReadAll body).1 := by
  have h := ReadAllTee_loop_eq body "" ""
  simpa [ReadAllTee, TeeReader, ReadAll] using h

theorem ReadAll_NopCloser (buf : String) : ReadAll (NopCloser buf) = (buf, none) := by
  unfold NopCloser
  by_cases h : buf = ""
  · simp [h, ReadAll, ReadAll.loop, ReadAll.result]
  · simp [h, ReadAll, ReadAll.loop, ReadAll.result]

theorem contents_of_ReadAll_loop (r : Reader) (b : String)
    (h : (ReadAll.loop r b).2 = none) : (ReadAll.loop r b).1 = b ++ Reader.contents r := by
  induction r generalizing b with
  | nil => simp [ReadAll.loop, ReadAll.result, Reader.contents]
  | cons s rest ih =>
    cases hs : s.err with
    | none =>
      simp only [ReadAll.loop, hs] at h ⊢
      rw [ih _ h]
      simp [Reader.contents, hs, String.append_assoc]
    | some e =>
      cases e with
      | EOF => simp [ReadAll.loop, hs, ReadAll.result, Reader.contents]
      | other msg => simp [ReadAll.loop, hs, ReadAll.result] at h

/-- What `LogRequest` does to a request with a body, in closed form. -/
theorem LogRequest_some (logger : Logger) (request : Request) (body : Reader)
    (hb : request.Body = some body) :
    LogRequest logger request
      = (logger ++ [⟨LogLevel.InfoF,
            specHead request.Method request.URL (headerPairs request.Header)
              ++ "request body:" ++ (ReadAll body).1, []⟩],
         { request with Body := some (NopCloser (ReadAll body).1) }) := by
  have h := ReadAllTee_eq body
  simp only [LogRequest, hb, Logger.InfoF, head_eq]
  rw [h.2, h.1]

/-- What `LogRequest` does to a request without a body, in closed form. -/
theorem LogRequest_none (logger : Logger) (request : Request)
    (hb : request.Body = none) :
    LogRequest logger request
      = (logger ++ [⟨LogLevel.InfoF,
            specHead request.Method request.URL (headerPairs request.Header), []⟩],
         request) := by
  simp only [LogRequest, hb, Logger.InfoF, head_eq]

/-! ## Claims about `LogRequest` -/

/-- C1 as stated fails: the body of `failingRequest` carries `abcdef`, its read
fails after `abc`, and after `LogRequest` the request body reads to completion as
`abc` only. -/
theorem LogRequest_body_truncated_after_failed_read :
    failingRequest.Body = some failingBody
      ∧ Reader.contents failingBody = "abcdef"
      ∧ ReadAll failingBody = ("abc", some "i/o timeout")
      ∧ ∃ r, (LogRequest [] failingRequest).2.Body = some r
          ∧ ReadAll r = ("abc", none)
          ∧ (ReadAll r).1 ≠ Reader.contents failingBody := by
  refine ⟨rfl, by decide, by decide, [⟨"abc", none⟩], by decide, by decide, by decide⟩

/-- C1 amended: when the body is non-nil and its stream reads to completion
without an error, then after `LogRequest` the request body reads to completion,
without an error, as exactly the bytes the original stream carried. -/
theorem LogRequest_body_preserved (logger : Logger) (request : Request) (body : Reader)
    (hb : request.Body = some body) (hok : (ReadAll body).2 = none) :
    ∃ r, (LogRequest logger request).2.Body = some r
      ∧ ReadAll r = (Reader.contents body, none) := by
  refine ⟨NopCloser (ReadAll body).1, ?_, ?_⟩
  · rw [LogRequest_some logger request body hb]
  · have h := contents_of_ReadAll_loop body "" hok
    rw [ReadAll_NopCloser]
    simp only [ReadAll]
    rw [h]
    simp

/-- Witness of `LogRequest_body_preserved` on the format scenario. -/
theorem LogRequest_body_preserved_witness :
    ∃ r, (LogRequest [] formatScenario).2.Body = some r
      ∧ ReadAll r = ("\x7b\"touser\":\"abc\"\x7d", none) :=
  LogRequest_body_preserved [] formatScenario [⟨"\x7b\"touser\":\"abc\"\x7d", none⟩] rfl
    (by decide)

/-- C2: for a request with method `m`, URL `u`, header pairs in iteration order
and a body that reads without error to `B`, the string handed to the sink is
`m u ` followed by the opening marker, one line per header pair, the closing
marker, `request body:` and `B`; on the format scenario it is the string of the
specification. -/
theorem LogRequest_format (logger : Logger) (request : Request) (body : Reader) (B : String)
    (hb : request.Body = some body) (hB : ReadAll body = (B, none)) :
    (LogRequest logger request).1
        = logger ++ [⟨LogLevel.InfoF,
            request.Method ++ " " ++ request.URL ++ " " ++ "\r\nrequest header: \x7b \r\n"
              ++ headerLines (headerPairs request.Header) ++ "\x7d \r\n"
              ++ "request body:" ++ B, []⟩]
      ∧ (LogRequest [] formatScenario).1
        = [⟨LogLevel.InfoF,
            "POST https://api.example.com/send \r\nrequest header: \x7b \r\n\tContent-Type:application/json\r\n\x7d \r\nrequest body:\x7b\"touser\":\"abc\"\x7d",
            []⟩] := by
  refine ⟨?_, by decide⟩
  rw [LogRequest_some logger request body hb, hB]
  rfl

/-- Witness of `LogRequest_format` on a request with two header names. -/
theorem LogRequest_format_witness :
    (LogRequest [] { twoHeaderRequest with Body := some [⟨"a", none⟩, ⟨"b", none⟩] }).1
        = [⟨LogLevel.InfoF,
            "GET https://api.example.com/list \r\nrequest header: \x7b \r\n\tX-A:1\r\n\tX-A:2\r\n\tX-B:3\r\n\x7d \r\nrequest body:ab",
            []⟩] :=
  (LogRequest_format [] { twoHeaderRequest with Body := some [⟨"a", none⟩, ⟨"b", none⟩] }
    [⟨"a", none⟩, ⟨"b", none⟩] "ab" rfl (by decide)).1

/-- C3: when the body stream yields `P` and then fails with a read error,
`LogRequest` still returns its result, which has no error component, and the
string handed to the sink is the head of the record followed by `request body:`
and exactly `P`. -/
theorem LogRequest_read_failure (logger : Logger) (request : Request) (body : Reader)
    (P msg : String)
    (hb : request.Body = some body) (hP : ReadAll body = (P, some msg)) :
    (LogRequest logger request).1
      = logger ++ [⟨LogLevel.InfoF,
          specHead request.Method request.URL (headerPairs request.Header)
            ++ "request body:" ++ P, []⟩] := by
  rw [LogRequest_some logger request body hb, hP]

/-- Witness of `LogRequest_read_failure` on `failingRequest`. -/
theorem LogRequest_read_failure_witness :
    ReadAll failingBody = ("abc", some "i/o timeout")
      ∧ (LogRequest [] failingRequest).1
        = [⟨LogLevel.InfoF,
            "POST https://api.example.com/send \r\nrequest header: \x7b \r\n\x7d \r\nrequest body:abc",
            []⟩] :=
  ⟨by decide,
    LogRequest_read_failure [] failingRequest failingBody "abc" "i/o timeout"
      rfl (by decide)⟩

/-- C4 as stated fails: `markerRequest` has a nil body and the string handed to
the sink contains `request body:`, which comes from a header value. -/
theorem LogRequest_nil_body_marker_present :
    markerRequest.Body = none
      ∧ ∃ s, (LogRequest [] markerRequest).1 = [⟨LogLevel.InfoF, s, []⟩]
          ∧ occursIn "request body:" s := by
  refine ⟨rfl, _, rfl, ?_⟩
  exact ⟨"GET https://api.example.com/list \r\nrequest header: \x7b \r\n\tX-Note:",
    "\r\n\x7d \r\n", by decide⟩

/-- C4 amended: for a request with a nil body `LogRequest` returns, leaves the
request as it was, and hands the sink exactly the method and URL line followed by
the header block, the closing marker being its end: no body section and no
`request body:` marker is added after it. -/
theorem LogRequest_nil_body (logger : Logger) (request : Request)
    (hb : request.Body = none) :
    (LogRequest logger request).1
        = logger ++ [⟨LogLevel.InfoF,
            request.Method ++ " " ++ request.URL ++ " " ++ "\r\nrequest header: \x7b \r\n"
              ++ headerLines (headerPairs request.Header) ++ "\x7d \r\n", []⟩]
      ∧ (LogRequest logger request).2 = request := by
  rw [LogRequest_none logger request hb]
  exact ⟨rfl, rfl⟩

/-- Witness of `LogRequest_nil_body` on `twoHeaderRequest`. -/
theorem LogRequest_nil_body_witness :
    (LogRequest [] twoHeaderRequest).1
        = [⟨LogLevel.InfoF,
            "GET https://api.example.com/list \r\nrequest header: \x7b \r\n\tX-A:1\r\n\tX-A:2\r\n\tX-B:3\r\n\x7d \r\n",
            []⟩]
      ∧ (LogRequest [] twoHeaderRequest).2 = twoHeaderRequest :=
  LogRequest_nil_body [] twoHeaderRequest rfl

/-- C5: the string handed to the sink is the method and URL line, the opening
marker, then the lines `\t<name>:<value>\r\n` of the header pairs, names in
iteration order and the values of a name in stored order, then the closing marker
and the body section.  For the headers X-A: 1, 2 and X-B: 3, in either iteration
order of the two names, the lines are those three, X-A:1 before X-A:2. -/
theorem LogRequest_header_lines (logger : Logger) (request : Request) :
    (LogRequest logger request).1
        = logger ++ [⟨LogLevel.InfoF,
            (request.Method ++ " " ++ request.URL ++ " ") ++ "\r\nrequest header: \x7b \r\n"
              ++ headerLines (headerPairs request.Header)
              ++ "\x7d \r\n" ++ specBody request.Body, []⟩]
      ∧ (request.Header.Perm [("X-A", ["1", "2"]), ("X-B", ["3"])] →
          (headerLines (headerPairs request.Header) = "\tX-A:1\r\n\tX-A:2\r\n\tX-B:3\r\n"
            ∨ headerLines (headerPairs request.Header)
                = "\tX-B:3\r\n\tX-A:1\r\n\tX-A:2\r\n")
          ∧ (headerPairs request.Header).Perm [("X-A", "1"), ("X-A", "2"), ("X-B", "3")]
          ∧ [("X-A", "1"), ("X-A", "2")].Sublist (headerPairs request.Header)) := by
  constructor
  · cases hb : request.Body with
    | none =>
      rw [LogRequest_none logger request hb]
      simp [specBody, specHead]
    | some body =>
      rw [LogRequest_some logger request body hb]
      simp only [specBody, specHead, String.append_assoc]
  · generalize request.Header = header
    intro hperm
    have hlen := hperm.length_eq
    match header, hlen with
    | [x, y], _ =>
      have hx : x ∈ [("X-A", ["1", "2"]), ("X-B", ["3"])] := hperm.subset (by simp)
      have hy : y ∈ [("X-A", ["1", "2"]), ("X-B", ["3"])] := hperm.subset (by simp)
      have hnd : [x, y].Nodup := hperm.nodup_iff.mpr (by decide)
      have hne : x ≠ y := by
        intro h
        simp [h] at hnd
      simp only [List.mem_cons, List.mem_singleton, List.not_mem_nil, or_false] at hx hy
      rcases hx with hx | hx <;> rcases hy with hy | hy
      · exact absurd (hx.trans hy.symm) hne
      · subst hx; subst hy
        exact ⟨Or.inl (by decide), by decide, by decide⟩
      · subst hx; subst hy
        refine ⟨Or.inr (by decide), ?_, ?_⟩
        · exact (List.perm_append_comm :
            List.Perm ([("X-B", "3")] ++ [("X-A", "1"), ("X-A", "2")])
              ([("X-A", "1"), ("X-A", "2")] ++ [("X-B", "3")]))
        · exact List.Sublist.cons _ (List.Sublist.refl _)
      · exact absurd (hx.trans hy.symm) hne

/-- Witness of `LogRequest_header_lines` with the name X-B iterated first. -/
theorem LogRequest_header_lines_witness :
    (headerLines (headerPairs [("X-B", ["3"]), ("X-A", ["1", "2"])])
          = "\tX-A:1\r\n\tX-A:2\r\n\tX-B:3\r\n"
        ∨ headerLines (headerPairs [("X-B", ["3"]), ("X-A", ["1", "2"])])
          = "\tX-B:3\r\n\tX-A:1\r\n\tX-A:2\r\n")
      ∧ (headerPairs [("X-B", ["3"]), ("X-A", ["1", "2"])]).Perm
          [("X-A", "1"), ("X-A", "2"), ("X-B", "3")]
      ∧ [("X-A", "1"), ("X-A", "2")].Sublist
          (headerPairs [("X-B", ["3"]), ("X-A", ["1", "2"])]) :=
  (LogRequest_header_lines [] ⟨"GET", "u", [("X-B", ["3"]), ("X-A", ["1", "2"])], none⟩).2
    (List.Perm.swap _ _ _)

/-- C6: one call of `LogRequest` adds exactly one call to those recorded by the
sink, an `InfoF` call without further arguments whose string is the whole record:
head, header block and, for a non-nil body, the body section with the bytes read,
whether or not the read failed. -/
theorem LogRequest_single_write (logger : Logger) (request : Request) :
    (LogRequest logger request).1
        = logger ++ [⟨LogLevel.InfoF,
            specHead request.Method request.URL (headerPairs request.Header)
              ++ specBody request.Body, []⟩]
      ∧ (LogRequest logger request).1.length = logger.length + 1 := by
  have h : (LogRequest logger request).1
        = logger ++ [⟨LogLevel.InfoF,
            specHead request.Method request.URL (headerPairs request.Header)
              ++ specBody request.Body, []⟩] := by
    cases hb : request.Body with
    | none =>
      rw [LogRequest_none logger request hb]
      simp [specBody]
    | some body =>
      rw [LogRequest_some logger request body hb]
      simp [specBody, String.append_assoc]
  exact ⟨h, by rw [h]; simp⟩

/-- C7: `LogRequest` leaves `Method`, `URL` and `Header` of the request as they
were; the request after the call is the request before it with at most `Body`
replaced. -/
theorem LogRequest_frame (logger : Logger) (request : Request) :
    (LogRequest logger request).2.Method = request.Method
      ∧ (LogRequest logger request).2.URL = request.URL
      ∧ (LogRequest logger request).2.Header = request.Header
      ∧ (LogRequest logger request).2
          = { request with Body := (LogRequest logger request).2.Body } := by
  cases hb : request.Body with
  | none =>
    rw [LogRequest_none logger request hb]
    simp [← hb]
  | some body =>
    rw [LogRequest_some logger request body hb]
    simp

/-- C8: for a non-nil body whose read yields `P` with or without an error, the
replaced body reads to completion as exactly `P` followed by a clean end of
stream, and the bytes logged after `request body:` are the bytes that read
yields. -/
theorem LogRequest_logged_is_replayed (logger : Logger) (request : Request) (body : Reader)
    (P : String) (e : Option String)
    (hb : request.Body = some body) (hP : ReadAll body = (P, e)) :
    ∃ r, (LogRequest logger request).2.Body = some r
      ∧ ReadAll r = (P, none)
      ∧ (LogRequest logger request).1
          = logger ++ [⟨LogLevel.InfoF,
              specHead request.Method request.URL (headerPairs request.Header)
                ++ "request body:" ++ (ReadAll r).1, []⟩] := by
  refine ⟨NopCloser (ReadAll body).1, ?_, ?_, ?_⟩
  · rw [LogRequest_some logger request body hb]
  · rw [ReadAll_NopCloser, hP]
  · rw [LogRequest_some logger request body hb, ReadAll_NopCloser]

/-- Witness of `LogRequest_logged_is_replayed` on `failingRequest`: the read
error and the bytes `def` are gone from the replaced body. -/
theorem LogRequest_logged_is_replayed_witness :
    ReadAll failingBody = ("abc", some "i/o timeout")
      ∧ ∃ r, (LogRequest [] failingRequest).2.Body = some r
          ∧ ReadAll r = ("abc", none)
          ∧ (LogRequest [] failingRequest).1
              = [] ++ [⟨LogLevel.InfoF,
                  specHead failingRequest.Method failingRequest.URL
                    (headerPairs failingRequest.Header)
                    ++ "request body:" ++ (ReadAll r).1, []⟩] :=
  ⟨by decide,
    LogRequest_logged_is_replayed [] failingRequest failingBody "abc"
      (some "i/o timeout") rfl (by decide)⟩

/-- C9: when the body is nil or reads without error to `B`, a second call of
`LogRequest` on the request left by the first one, with the same header
iteration order, hands the sink the same string, and afterwards the body is still
nil, respectively still reads to completion as exactly `B`. -/
theorem LogRequest_repeatable (logger : Logger) (request : Request)
    (h : request.Body = none ∨ ∃ body B, request.Body = some body ∧ ReadAll body = (B, none)) :
    ∃ s, (LogRequest logger request).1 = logger ++ [⟨LogLevel.InfoF, s, []⟩]
      ∧ (LogRequest (LogRequest logger request).1 (LogRequest logger request).2).1
          = logger ++ [⟨LogLevel.InfoF, s, []⟩] ++ [⟨LogLevel.InfoF, s, []⟩]
      ∧ (request.Body = none →
          (LogRequest (LogRequest logger request).1 (LogRequest logger request).2).2.Body
            = none)
      ∧ (∀ body B, request.Body = some body → ReadAll body = (B, none) →
          ∃ r, (LogRequest (LogRequest logger request).1 (LogRequest logger request).2).2.Body
                = some r
            ∧ ReadAll r = (B, none)) := by
  rcases h with hb | ⟨body, B, hb, hB⟩
  · refine ⟨specHead request.Method request.URL (headerPairs request.Header), ?_, ?_, ?_, ?_⟩
    · rw [LogRequest_none logger request hb]
    · rw [LogRequest_none logger request hb, LogRequest_none _ request hb]
    · intro _
      rw [LogRequest_none logger request hb, LogRequest_none _ request hb]
      exact hb
    · intro body B hb2
      rw [hb] at hb2
      cases hb2
  · have h1 := LogRequest_some logger request body hb
    have h2 := LogRequest_some (LogRequest logger request).1 (LogRequest logger request).2
      (NopCloser (ReadAll body).1) (by rw [h1])
    refine ⟨specHead request.Method request.URL (headerPairs request.Header)
      ++ "request body:" ++ (ReadAll body).1, ?_, ?_, ?_, ?_⟩
    · rw [h1]
    · rw [h2, ReadAll_NopCloser, h1]
    · intro hn
      rw [hb] at hn
      cases hn
    · intro body2 B2 hb2 hB2
      rw [hb] at hb2
      cases hb2
      refine ⟨NopCloser (ReadAll body).1, ?_, ?_⟩
      · rw [h2, ReadAll_NopCloser]
      · rw [ReadAll_NopCloser, hB2]

/-- Witness of `LogRequest_repeatable` on the format scenario. -/
theorem LogRequest_repeatable_witness :
    ∃ s, (LogRequest [] formatScenario).1 = [] ++ [⟨LogLevel.InfoF, s, []⟩]
      ∧ (LogRequest (LogRequest [] formatScenario).1 (LogRequest [] formatScenario).2).1
          = [] ++ [⟨LogLevel.InfoF, s, []⟩] ++ [⟨LogLevel.InfoF, s, []⟩]
      ∧ (formatScenario.Body = none →
          (LogRequest (LogRequest [] formatScenario).1 (LogRequest [] formatScenario).2).2.Body
            = none)
      ∧ (∀ body B, formatScenario.Body = some body → ReadAll body = (B, none) →
          ∃ r, (LogRequest (LogRequest [] formatScenario).1
                  (LogRequest [] formatScenario).2).2.Body = some r
            ∧ ReadAll r = (B, none)) :=
  LogRequest_repeatable [] formatScenario
    (Or.inr ⟨[⟨"\x7b\"touser\":\"abc\"\x7d", none⟩], "\x7b\"touser\":\"abc\"\x7d", rfl,
      by decide⟩)

/-! ## Claims about `Client.SetAvatar` -/

/-- C10: `SetAvatar` returns a nil result with the error `path is empty` and
makes no upload call if and only if `path` is empty; for a non-empty path it
makes exactly one upload call, to `customservice/kfaccount/uploadheadimg` with
files `media: path` and query `kf_account: account`, and returns the result and
the error of that call. -/
theorem SetAvatar_spec (comp : Client) (account path : String) :
    (((comp.SetAvatar account path).1 = (none, some "path is empty")
        ∧ (comp.SetAvatar account path).2.BaseClient.uploads = comp.BaseClient.uploads)
      ↔ path = "")
      ∧ (path ≠ "" →
          (comp.SetAvatar account path).2.BaseClient.uploads
              = comp.BaseClient.uploads
                ++ [⟨"customservice/kfaccount/uploadheadimg", some [("media", path)], none,
                      some [("kf_account", account)], none⟩]
            ∧ (comp.SetAvatar account path).1
              = comp.BaseClient.HttpUpload
                  ⟨"customservice/kfaccount/uploadheadimg", some [("media", path)], none,
                    some [("kf_account", account)], none⟩
                  (some ⟨0, ""⟩)) := by
  by_cases hp : path = ""
  · subst hp
    simp [Client.SetAvatar]
  · simp [Client.SetAvatar, hp]

/-- Witness of `SetAvatar_spec` for a non-empty path on `sampleClient`. -/
theorem SetAvatar_spec_witness :
    (sampleClient.SetAvatar "kf1@acct" "/tmp/a.png").2.BaseClient.uploads
        = [] ++ [⟨"customservice/kfaccount/uploadheadimg", some [("media", "/tmp/a.png")], none,
                  some [("kf_account", "kf1@acct")], none⟩]
      ∧ (sampleClient.SetAvatar "kf1@acct" "/tmp/a.png").1
        = (some ⟨0, ""⟩, some "upload failed") :=
  (SetAvatar_spec sampleClient "kf1@acct" "/tmp/a.png").2 (by decide)

end PowerWeChat
